import Mathlib

/-!
Verification of the realtime event-distribution and admission-control
subsystem of the node-fundamentals lab API, as a shallow embedding in
Lean 4.  Pure functions of the source are translated into Lean
functions; stateful objects (the event bus, SSE connections, the rate
limiter buckets, the worker pool) become explicit state records with
step functions; JavaScript numbers that only ever hold non-negative
integers are modelled as `Nat`, fractional token counts of the rate
limiter as `Rat`.
-/

namespace NodeLab

/-- The RtEvent record of `src/apps/api/src/realtime/eventBus.ts`:
a sequence number, an event type, an epoch-ms timestamp, an opaque
payload (modelled as a string) and an optional room. -/
structure RtEvent where
  seq : Nat
  type : String
  ts : Nat
  data : String
  room : Option String
deriving DecidableEq, Repr

/-- The mutable state of the EventBus class: the bounded ring of
retained events, the retention bound `maxEvents`, and the next
sequence number to hand out. A fresh bus (`new EventBus(maxEvents)`)
has an empty ring and `nextSeq = 1`. -/
structure EventBus where
  ring : List RtEvent
  maxEvents : Nat
  nextSeq : Nat
deriving DecidableEq, Repr

/-- A fresh bus as built by the constructor. -/
def EventBus.fresh (maxEvents : Nat) : EventBus :=
  { ring := [], maxEvents := maxEvents, nextSeq := 1 }

/-- The optional third argument of `EventBus.publish`. -/
structure PublishOpts where
  room : Option String := none
  seq : Option Nat := none
  ts : Option Nat := none
deriving DecidableEq, Repr

/-- Translation of `EventBus.publish`:
`seq = opts?.seq ?? this.nextSeq++` (the post-increment only happens
when no explicit seq is given), then
`if (seq >= this.nextSeq) this.nextSeq = seq + 1`, append the event to
the ring, and `shift()` the oldest entry when the ring exceeds
`maxEvents`.  `now` stands for `Date.now()`.  Subscriber notification
carries no bus-state change and is modelled where the claims need it. -/
def EventBus.publish (b : EventBus) (ty : String) (dat : String) (now : Nat)
    (opts : PublishOpts) : EventBus × RtEvent :=
  let seq := opts.seq.getD b.nextSeq
  let ns1 := if opts.seq.isSome then b.nextSeq else b.nextSeq + 1
  let ns2 := if ns1 ≤ seq then seq + 1 else ns1
  let evt : RtEvent :=
    { seq := seq, type := ty, ts := opts.ts.getD now, data := dat, room := opts.room }
  let ring1 := b.ring ++ [evt]
  let ring2 := if b.maxEvents < ring1.length then ring1.drop 1 else ring1
  ({ b with ring := ring2, nextSeq := ns2 }, evt)

/-- Translation of `EventBus.replayAfterSeq`: a nullish or NaN cursor
(modelled by `none`) yields `[]`; otherwise
`findIndex(e => e.seq > afterSeq)` locates the first ring entry past
the cursor and `slice(startIdx, startIdx + limit)` is returned. -/
def EventBus.replayAfterSeq (b : EventBus) (afterSeq : Option Nat)
    (limit : Nat) : List RtEvent :=
  match afterSeq with
  | none => []
  | some a =>
    match b.ring.findIdx? (fun e => a < e.seq) with
    | none => []
    | some i => (b.ring.drop i).take limit

/-- Translation of `EventBus.latestSeq`. -/
def EventBus.latestSeq (b : EventBus) : Nat :=
  match b.ring.getLast? with
  | some e => e.seq
  | none => 0

/-- One call to `publish`: event type, payload, the value of
`Date.now()` at call time, and the options argument. -/
structure PublishCall where
  ty : String
  dat : String
  now : Nat
  opts : PublishOpts
deriving DecidableEq, Repr

/-- Run a sequence of `publish` calls, collecting the returned events. -/
def runPublishes (b : EventBus) : List PublishCall → EventBus × List RtEvent
  | [] => (b, [])
  | c :: cs =>
    let p := b.publish c.ty c.dat c.now c.opts
    let r := runPublishes p.1 cs
    (r.1, p.2 :: r.2)

theorem publish_nextSeq_of_auto (b : EventBus) (ty dat : String) (now : Nat)
    (opts : PublishOpts) (h : opts.seq = none) :
    (b.publish ty dat now opts).1.nextSeq = b.nextSeq + 1 ∧
      (b.publish ty dat now opts).2.seq = b.nextSeq := by
  simp [EventBus.publish, h]

theorem runPublishes_auto_seqs (cs : List PublishCall) :
    ∀ b : EventBus, (∀ c ∈ cs, c.opts.seq = none) →
      ((runPublishes b cs).2.map RtEvent.seq) = List.range' b.nextSeq cs.length ∧
        (runPublishes b cs).1.nextSeq = b.nextSeq + cs.length := by
  induction cs with
  | nil => intro b _; simp [runPublishes]
  | cons c cs ih =>
    intro b h
    have hc : c.opts.seq = none := h c (List.mem_cons_self c cs)
    have hstep := publish_nextSeq_of_auto b c.ty c.dat c.now c.opts hc
    have hrest := ih (b.publish c.ty c.dat c.now c.opts).1
      (fun d hd => h d (List.mem_cons_of_mem c hd))
    constructor
    · simp only [runPublishes, List.map_cons, hstep.2, hrest.1, hstep.1,
        List.length_cons, List.range'_succ]
    · simp only [runPublishes, hrest.2, hstep.1, List.length_cons]
      omega

theorem replay_match_eq_dropWhile (p : RtEvent → Bool) (l : List RtEvent) :
    (match l.findIdx? p with
      | none => ([] : List RtEvent)
      | some i => l.drop i) = l.dropWhile (fun e => ! p e) := by
  induction l with
  | nil => simp
  | cons a l ih =>
    cases hpa : p a
    · rw [List.dropWhile_cons]
      simp only [List.findIdx?_cons, hpa, if_false, List.findIdx?_succ, Bool.not_false,
        if_true]
      cases h : l.findIdx? p with
      | none => simpa [h] using ih
      | some i => simpa [h, List.drop_succ_cons] using ih
    · simp [List.findIdx?_cons, hpa, List.dropWhile_cons]

theorem dropWhile_eq_filter_of_upclosed (p : RtEvent → Bool) (l : List RtEvent)
    (hl : l.Pairwise (fun x y => p x = true → p y = true)) :
    l.dropWhile (fun e => ! p e) = l.filter p := by
  induction l with
  | nil => simp
  | cons a l ih =>
    rw [List.pairwise_cons] at hl
    cases hpa : p a
    · simp [List.dropWhile_cons, hpa, List.filter_cons, ih hl.2]
    · rw [List.dropWhile_cons]
      simp only [hpa, Bool.not_true, Bool.false_eq_true, if_false, List.filter_cons, if_true]
      have hall : ∀ x ∈ l, p x = true := fun x hx => hl.1 x hx hpa
      exact congrArg (List.cons a) ((List.filter_eq_self).2 hall).symm

/-- C1 (amended): for every run of publish calls in which no caller supplies
an explicit seq in the options argument, the assigned sequence numbers are
exactly the consecutive integers starting at the bus's current nextSeq:
strictly increasing, unique and gapless. -/
theorem C1_auto_publish_seqs_consecutive (b : EventBus) (cs : List PublishCall)
    (h : ∀ c ∈ cs, c.opts.seq = none) :
    ((runPublishes b cs).2.map RtEvent.seq) = List.range' b.nextSeq cs.length ∧
      ((runPublishes b cs).2.map RtEvent.seq).Pairwise (· < ·) ∧
      ((runPublishes b cs).2.map RtEvent.seq).Nodup := by
  have hm := (runPublishes_auto_seqs cs b h).1
  refine ⟨hm, ?_, ?_⟩
  · rw [hm]; exact List.pairwise_lt_range' _ _ 1
  · rw [hm]; exact List.nodup_range' _ _

/-- Witness for C1: three default publishes on a fresh bus yield seqs 1, 2, 3. -/
theorem C1_auto_publish_seqs_consecutive_witness :
    (∀ c ∈ ([⟨"t1", "a", 0, {}⟩, ⟨"t2", "b", 1, {}⟩, ⟨"t3", "c", 2, {}⟩] :
        List PublishCall), c.opts.seq = none) ∧
      ((runPublishes (EventBus.fresh 500)
          [⟨"t1", "a", 0, {}⟩, ⟨"t2", "b", 1, {}⟩, ⟨"t3", "c", 2, {}⟩]).2.map
        RtEvent.seq) = List.range' 1 3 :=
  ⟨by decide,
    (C1_auto_publish_seqs_consecutive (EventBus.fresh 500)
      [⟨"t1", "a", 0, {}⟩, ⟨"t2", "b", 1, {}⟩, ⟨"t3", "c", 2, {}⟩] (by decide)).1⟩

/-- C1 counterexample: a default publish assigns seq 1; a second publish that
passes an explicit seq of 1 in the options argument is assigned seq 1 again,
so the published seqs are neither strictly increasing nor unique nor gapless. -/
theorem C1_explicit_seq_counterexample :
    ((EventBus.fresh 500).publish "demo.event" "a" 0 {}).2.seq = 1 ∧
      ((((EventBus.fresh 500).publish "demo.event" "a" 0 {}).1).publish
          "demo.event" "b" 0 { seq := some 1 }).2.seq = 1 ∧
      ¬ (((EventBus.fresh 500).publish "demo.event" "a" 0 {}).2.seq <
          ((((EventBus.fresh 500).publish "demo.event" "a" 0 {}).1).publish
            "demo.event" "b" 0 { seq := some 1 }).2.seq) := by
  decide

/-- C2 (amended): on every bus whose ring is strictly sorted by seq — which
holds for every state reachable without explicit seq overrides — replayAfterSeq
returns exactly the events with seq strictly greater than the cursor, in ring
(ascending seq) order, truncated to the first `limit` of them; being a pure
function of the bus state, repeated calls with no intervening publish are
trivially identical. -/
theorem C2_replay_is_filtered_suffix (b : EventBus) (cursor limit : Nat)
    (h : b.ring.Pairwise (fun x y => x.seq < y.seq)) :
    b.replayAfterSeq (some cursor) limit
      = (b.ring.filter (fun e => cursor < e.seq)).take limit := by
  have hdw := replay_match_eq_dropWhile (fun e => decide (cursor < e.seq)) b.ring
  have hup : b.ring.Pairwise (fun x y =>
      decide (cursor < x.seq) = true → decide (cursor < y.seq) = true) := by
    refine h.imp ?_
    intro x y hxy hx
    simp only [decide_eq_true_eq] at hx ⊢
    omega
  have hfil := dropWhile_eq_filter_of_upclosed (fun e => decide (cursor < e.seq)) b.ring hup
  rw [← hfil, ← hdw]
  unfold EventBus.replayAfterSeq
  cases h2 : b.ring.findIdx? (fun e => decide (cursor < e.seq)) with
  | none => simp [h2]
  | some i => simp [h2]

/-- Witness for C2: a bus holding seqs 1, 2, 3 replayed after cursor 1 with
limit 200 returns the events with seqs 2 and 3. -/
theorem C2_replay_is_filtered_suffix_witness :
    (((runPublishes (EventBus.fresh 500)
        [⟨"t1", "a", 0, {}⟩, ⟨"t2", "b", 1, {}⟩, ⟨"t3", "c", 2, {}⟩]).1).ring.Pairwise
      (fun x y => x.seq < y.seq)) ∧
    ((runPublishes (EventBus.fresh 500)
        [⟨"t1", "a", 0, {}⟩, ⟨"t2", "b", 1, {}⟩, ⟨"t3", "c", 2, {}⟩]).1).replayAfterSeq
        (some 1) 200
      = (((runPublishes (EventBus.fresh 500)
          [⟨"t1", "a", 0, {}⟩, ⟨"t2", "b", 1, {}⟩, ⟨"t3", "c", 2, {}⟩]).1).ring.filter
          (fun e => 1 < e.seq)).take 200 :=
  ⟨by decide,
    C2_replay_is_filtered_suffix _ 1 200 (by decide)⟩

/-- C2 counterexample: explicit seq overrides can leave the ring unsorted
(publish with seq 5, then seq 2); replaying after cursor 3 then returns the
slice starting at the first event with seq above 3, which also contains the
later event with seq 2 — not the set of buffered events with seq above the
cursor, and not ascending. -/
theorem C2_unsorted_ring_counterexample :
    ((((EventBus.fresh 500).publish "a" "" 0 { seq := some 5 }).1.publish
        "b" "" 0 { seq := some 2 }).1.replayAfterSeq (some 3) 200
      ≠ (((((EventBus.fresh 500).publish "a" "" 0 { seq := some 5 }).1.publish
          "b" "" 0 { seq := some 2 }).1).ring.filter (fun e => 3 < e.seq)).take 200) ∧
    (∃ e ∈ (((EventBus.fresh 500).publish "a" "" 0 { seq := some 5 }).1.publish
        "b" "" 0 { seq := some 2 }).1.replayAfterSeq (some 3) 200, e.seq ≤ 3) := by
  decide

/-- The replay batch computed by `sseHandler` on connect (the version wired
into the realtime router, with backpressure state): a present numeric
Last-Event-ID header maps to that cursor, an absent (or non-finite) header
maps to cursor 0, and `replayAfterSeq(afterSeq, 200)` is called. -/
def sseReplayOnConnect (b : EventBus) (lastEventId : Option Nat) : List RtEvent :=
  let afterSeq := match lastEventId with
    | some n => n
    | none => 0
  b.replayAfterSeq (some afterSeq) 200

/-- C3 (amended): a new SSE connection with no Last-Event-ID header is given
cursor 0, so the handler replays the buffered events (every retained event
has seq at least 1), up to the first 200 of them, before the live
subscription — it starts from "now" only when the ring is empty. -/
theorem C3_no_header_replays_buffered (b : EventBus)
    (h : ∀ e ∈ b.ring, 1 ≤ e.seq) :
    sseReplayOnConnect b none = b.ring.take 200 := by
  cases hr : b.ring with
  | nil => simp [sseReplayOnConnect, EventBus.replayAfterSeq, hr]
  | cons a l =>
    have ha : (0 : Nat) < a.seq := h a (by rw [hr]; exact List.mem_cons_self a l)
    simp [sseReplayOnConnect, EventBus.replayAfterSeq, hr, List.findIdx?_cons, ha]

/-- Witness for C3 (amended): a bus holding one buffered event replays that
event to a connection carrying no Last-Event-ID header. -/
theorem C3_no_header_replays_buffered_witness :
    (∀ e ∈ (((EventBus.fresh 1000).publish "demo.event" "x" 7 {}).1).ring, 1 ≤ e.seq) ∧
      sseReplayOnConnect (((EventBus.fresh 1000).publish "demo.event" "x" 7 {}).1) none
        = (((EventBus.fresh 1000).publish "demo.event" "x" 7 {}).1).ring.take 200 :=
  ⟨by decide,
    C3_no_header_replays_buffered (((EventBus.fresh 1000).publish "demo.event" "x" 7 {}).1)
      (by decide)⟩

/-- C3 counterexample: after one publish the bus holds a buffered event, and a
connection with no Last-Event-ID header is replayed that previously buffered
event — not the empty batch the claim requires. -/
theorem C3_no_header_counterexample :
    sseReplayOnConnect (((EventBus.fresh 1000).publish "demo.event" "x" 7 {}).1) none
      ≠ [] := by
  decide

/-- One occurrence that can reach the pending long-poll wait of
`GET /realtime/poll`: either the bus subscription callback fires (with the bus
in some state at that moment) or the `setTimeout` callback fires. -/
inductive PollAction where
  | event (bus : EventBus)
  | timeout
deriving Repr

/-- The state of one pending long poll: the `finished` flag, whether the
subscription made for this wait is still registered, whether the timer is
still armed, and the resolution payload once resolved (events and cursor). -/
structure PollWait where
  finished : Bool
  subscribed : Bool
  timerArmed : Bool
  result : Option (List RtEvent × Nat)
deriving Repr

/-- The wait state created by the route before any callback fires. -/
def PollWait.initial : PollWait :=
  { finished := false, subscribed := true, timerArmed := true, result := none }

/-- The poll route's batch limit. -/
def POLL_LIMIT : Nat := 500

/-- Translation of the two competing callbacks in the long-poll branch of
`GET /realtime/poll`.  Both first test the `finished` flag and return if it
is set.  The subscription callback sets `finished`, unsubscribes, re-queries
`replayAfterSeq(afterSeq, LIMIT)` and resolves with the batch and new cursor
through the wrapped `resolve`, which clears the timer.  The timeout callback
sets `finished`, unsubscribes and resolves with an empty batch and the
unchanged cursor (its timer has fired and is no longer armed). -/
def PollWait.step (afterSeq : Nat) (w : PollWait) : PollAction → PollWait
  | .event bus =>
    if w.finished then w
    else
      let events := bus.replayAfterSeq (some afterSeq) POLL_LIMIT
      let cursor := match events.getLast? with
        | some e => e.seq
        | none => afterSeq
      { finished := true, subscribed := false, timerArmed := false,
        result := some (events, cursor) }
  | .timeout =>
    if w.finished then w
    else
      { finished := true, subscribed := false, timerArmed := false,
        result := some ([], afterSeq) }

/-- Run a sequence of callback firings against a wait state. -/
def PollWait.run (afterSeq : Nat) (w : PollWait) : List PollAction → PollWait
  | [] => w
  | a :: as_ => PollWait.run afterSeq (w.step afterSeq a) as_

theorem PollWait.step_finished (afterSeq : Nat) (w : PollWait)
    (h : w.finished = true) (a : PollAction) : w.step afterSeq a = w := by
  cases a <;> simp [PollWait.step, h]

theorem PollWait.run_finished (afterSeq : Nat) (w : PollWait)
    (h : w.finished = true) : ∀ acts, PollWait.run afterSeq w acts = w := by
  intro acts
  induction acts with
  | nil => rfl
  | cons a as_ ih => rw [PollWait.run, PollWait.step_finished afterSeq w h a]; exact ih

theorem PollWait.step_initial_resolves (afterSeq : Nat) (a : PollAction) :
    (PollWait.initial.step afterSeq a).finished = true ∧
      (PollWait.initial.step afterSeq a).subscribed = false ∧
      (PollWait.initial.step afterSeq a).timerArmed = false ∧
      (PollWait.initial.step afterSeq a).result.isSome = true := by
  cases a <;> simp [PollWait.step, PollWait.initial]

/-- C4: however the two competing callbacks fire, the first firing alone
resolves the pending long poll — the whole run equals that single step — and
in the resolved state the subscription has been removed and the timer is no
longer armed (cancelled by the wrapped resolve when the event path wins,
already fired on the timeout path); the result is an empty batch with
unchanged cursor exactly when the timeout fired first, and a re-query from
the cursor when a publish fired first.  Every later firing leaves the state
untouched, so the two outcomes never both resolve. -/
theorem C4_long_poll_exactly_one_outcome (afterSeq : Nat) (a : PollAction)
    (acts : List PollAction) :
    PollWait.run afterSeq PollWait.initial (a :: acts)
        = PollWait.initial.step afterSeq a ∧
      (PollWait.run afterSeq PollWait.initial (a :: acts)).subscribed = false ∧
      (PollWait.run afterSeq PollWait.initial (a :: acts)).timerArmed = false ∧
      (PollWait.run afterSeq PollWait.initial (a :: acts)).result =
        (match a with
          | .timeout => some ([], afterSeq)
          | .event bus =>
            some (bus.replayAfterSeq (some afterSeq) POLL_LIMIT,
              match (bus.replayAfterSeq (some afterSeq) POLL_LIMIT).getLast? with
              | some e => e.seq
              | none => afterSeq)) := by
  have hfin := PollWait.step_initial_resolves afterSeq a
  have hrun : PollWait.run afterSeq PollWait.initial (a :: acts)
      = PollWait.initial.step afterSeq a := by
    rw [PollWait.run]
    exact PollWait.run_finished afterSeq _ hfin.1 acts
  refine ⟨hrun, ?_, ?_, ?_⟩
  · rw [hrun]; exact hfin.2.1
  · rw [hrun]; exact hfin.2.2.1
  · rw [hrun]; cases a <;> simp [PollWait.step, PollWait.initial]

/-- Per-connection queue caps of the SSE transport. -/
def MAX_QUEUE_BYTES : Nat := 512 * 1024

/-- Per-connection frame-count cap. -/
def MAX_QUEUE_FRAMES : Nat := 200

/-- Blocked-duration disconnect threshold (ms). -/
def MAX_BLOCKED_MS : Nat := 10000

/-- Drop-count disconnect threshold. -/
def MAX_DROPPED : Nat := 500

/-- The backpressure state of one SseConn.  A queued SSE frame is modelled
by its byte length (`Buffer.byteLength(frame)`), the only attribute the
queue logic reads; a length of 0 corresponds exactly to the empty string,
the only falsy frame. -/
structure SseConn where
  writableEnded : Bool
  blocked : Bool
  blockedSince : Option Nat
  queue : List Nat
  queuedBytes : Nat
  dropped : Nat
  sentEvents : Nat
  lastDrainAt : Option Nat
deriving DecidableEq, Repr

/-- The connection record built by `sseHandler` on connect. -/
def SseConn.initial : SseConn :=
  { writableEnded := false, blocked := false, blockedSince := none, queue := [],
    queuedBytes := 0, dropped := 0, sentEvents := 0, lastDrainAt := none }

/-- Translation of the cap-enforcement loop of `writeOrQueue`:
while the queue is over the frame cap or the byte cap, `shift()` the oldest
frame, and stop if the shifted value is falsy (`undefined` on an empty
queue, or the empty string, whose byte length is 0); otherwise subtract its
bytes and count the drop.  On an empty queue the guard branch and the exit
branch coincide (the shift removes nothing and the loop breaks), so the two
are merged into the single `[]` equation. -/
def enforceLimits : List Nat → Nat → Nat → List Nat × Nat × Nat
  | [], bytes, dropped => ([], bytes, dropped)
  | f :: rest, bytes, dropped =>
    if MAX_QUEUE_FRAMES < (f :: rest).length ∨ MAX_QUEUE_BYTES < bytes then
      if f = 0 then (rest, bytes, dropped)
      else enforceLimits rest (bytes - f) (dropped + 1)
    else (f :: rest, bytes, dropped)

theorem enforceLimits_nil (bytes dropped : Nat) :
    enforceLimits [] bytes dropped = ([], bytes, dropped) := rfl

theorem enforceLimits_cons (f : Nat) (rest : List Nat) (bytes dropped : Nat) :
    enforceLimits (f :: rest) bytes dropped =
      if MAX_QUEUE_FRAMES < (f :: rest).length ∨ MAX_QUEUE_BYTES < bytes then
        if f = 0 then (rest, bytes, dropped)
        else enforceLimits rest (bytes - f) (dropped + 1)
      else (f :: rest, bytes, dropped) := rfl

/-- Translation of `writeOrQueue`: a closed response is a no-op; an unblocked
connection first attempts a direct write (`writeOk` models the boolean
returned by `res.write`), counting the frame as sent on success and entering
the blocked state on failure; a blocked connection queues the frame, adds
its bytes, runs the cap-enforcement loop, and finally force-closes the
response when the blocked duration or the drop count is over its threshold. -/
def writeOrQueue (c : SseConn) (frame : Nat) (writeOk : Bool) (now : Nat) : SseConn :=
  if c.writableEnded then c
  else if ¬ c.blocked ∧ writeOk = true then { c with sentEvents := c.sentEvents + 1 }
  else
    let c1 := if c.blocked then c
      else { c with blocked := true, blockedSince := some (c.blockedSince.getD now) }
    let el := enforceLimits (c1.queue ++ [frame]) (c1.queuedBytes + frame) c1.dropped
    let c2 := { c1 with queue := el.1, queuedBytes := el.2.1, dropped := el.2.2 }
    let blockedFor := match c2.blockedSince with
      | some t => now - t
      | none => 0
    if MAX_BLOCKED_MS < blockedFor ∨ MAX_DROPPED < c2.dropped then
      { c2 with writableEnded := true }
    else c2

/-- Translation of the flush loop of `flushQueue`: while the queue is
nonempty, write the head frame; `accept` models how many writes the
underlying stream will accept before one returns false (any run of results
that the loop can observe is of this shape, since the loop stops at the
first false).  On a refused write the connection re-enters the blocked
state; on an accepted write the frame is removed, its bytes subtracted and
the sent counter bumped. -/
def flushLoop (c : SseConn) (accept : Nat) (now : Nat) : SseConn :=
  match c.queue, accept with
  | [], _ => c
  | _ :: _, 0 =>
    { c with blocked := true, blockedSince := some (c.blockedSince.getD now) }
  | f :: rest, n + 1 =>
    flushLoop
      { c with
        queue := rest
        queuedBytes := c.queuedBytes - f
        sentEvents := c.sentEvents + 1 } n now

/-- Translation of `flushQueue`: a closed response is a no-op; otherwise
clear the blocked state, record the drain time, and run the flush loop. -/
def flushQueue (c : SseConn) (accept : Nat) (now : Nat) : SseConn :=
  if c.writableEnded then c
  else
    flushLoop
      { c with blocked := false, blockedSince := none, lastDrainAt := some now }
      accept now

/-- One operation on a connection: a `writeOrQueue` call (with the byte
length of the frame, the result the stream would give a direct write, and
the current time) or a `flushQueue` call (with the number of writes the
stream accepts before refusing, and the current time). -/
inductive ConnOp where
  | write (frame : Nat) (ok : Bool) (now : Nat)
  | drain (accept : Nat) (now : Nat)
deriving DecidableEq, Repr

/-- Apply one operation. -/
def SseConn.apply (c : SseConn) : ConnOp → SseConn
  | .write f ok now => writeOrQueue c f ok now
  | .drain a now => flushQueue c a now

/-- Run a sequence of operations. -/
def SseConn.runOps (c : SseConn) : List ConnOp → SseConn
  | [] => c
  | op :: ops => (c.apply op).runOps ops

/-- Frames actually queued by the SSE handler are nonempty strings
(`sseFrame` output always starts with an id line), so their byte length is
positive. -/
def ConnOp.realistic : ConnOp → Prop
  | .write f _ _ => 1 ≤ f
  | .drain _ _ => True

theorem enforceLimits_sum : ∀ (q : List Nat) (bytes dropped : Nat),
    bytes = q.sum →
    (enforceLimits q bytes dropped).2.1 = (enforceLimits q bytes dropped).1.sum := by
  intro q
  induction q with
  | nil =>
    intro bytes dropped hb
    rw [enforceLimits_nil]
    simpa using hb
  | cons f rest ih =>
    intro bytes dropped hb
    rw [enforceLimits_cons]
    by_cases hg : MAX_QUEUE_FRAMES < (f :: rest).length ∨ MAX_QUEUE_BYTES < bytes
    · rw [if_pos hg]
      by_cases hf : f = 0
      · rw [if_pos hf]
        simp only [List.sum_cons] at hb
        simpa [hf] using hb
      · rw [if_neg hf]
        refine ih (bytes - f) (dropped + 1) ?_
        simp only [List.sum_cons] at hb
        omega
    · rw [if_neg hg]
      simpa using hb

theorem enforceLimits_caps : ∀ (q : List Nat) (bytes dropped : Nat),
    bytes = q.sum → (∀ f ∈ q, 1 ≤ f) →
    (enforceLimits q bytes dropped).1.length ≤ MAX_QUEUE_FRAMES ∧
      (enforceLimits q bytes dropped).2.1 ≤ MAX_QUEUE_BYTES ∧
      (enforceLimits q bytes dropped).1.IsSuffix q ∧
      dropped ≤ (enforceLimits q bytes dropped).2.2 := by
  intro q
  induction q with
  | nil =>
    intro bytes dropped hb _hpos
    rw [enforceLimits_nil]
    refine ⟨by simp [MAX_QUEUE_FRAMES], ?_, List.suffix_refl _, le_refl _⟩
    simp only [List.sum_nil] at hb
    simp [hb, MAX_QUEUE_BYTES]
  | cons f rest ih =>
    intro bytes dropped hb hpos
    rw [enforceLimits_cons]
    by_cases hg : MAX_QUEUE_FRAMES < (f :: rest).length ∨ MAX_QUEUE_BYTES < bytes
    · rw [if_pos hg]
      have hf1 : 1 ≤ f := hpos f (List.mem_cons_self f rest)
      rw [if_neg (by omega)]
      have hrest := ih (bytes - f) (dropped + 1)
        (by simp only [List.sum_cons] at hb; omega)
        (fun x hx => hpos x (List.mem_cons_of_mem f hx))
      exact ⟨hrest.1, hrest.2.1,
        hrest.2.2.1.trans (List.suffix_cons f rest), by omega⟩
    · rw [if_neg hg]
      push_neg at hg
      exact ⟨hg.1, hg.2, List.suffix_refl _, le_refl _⟩

instance (op : ConnOp) : Decidable op.realistic := by
  cases op with
  | write f ok now => exact inferInstanceAs (Decidable (1 ≤ f))
  | drain a now => exact inferInstanceAs (Decidable True)

theorem enforceLimits_dropped_mono : ∀ (q : List Nat) (bytes dropped : Nat),
    dropped ≤ (enforceLimits q bytes dropped).2.2 := by
  intro q
  induction q with
  | nil => intro bytes dropped; rw [enforceLimits_nil]
  | cons f rest ih =>
    intro bytes dropped
    rw [enforceLimits_cons]
    by_cases hg : MAX_QUEUE_FRAMES < (f :: rest).length ∨ MAX_QUEUE_BYTES < bytes
    · rw [if_pos hg]
      by_cases hf : f = 0
      · rw [if_pos hf]
      · rw [if_neg hf]
        exact (Nat.le_succ dropped).trans (ih (bytes - f) (dropped + 1))
    · rw [if_neg hg]

theorem enforceLimits_suffix : ∀ (q : List Nat) (bytes dropped : Nat),
    (enforceLimits q bytes dropped).1.IsSuffix q := by
  intro q
  induction q with
  | nil => intro bytes dropped; rw [enforceLimits_nil]
  | cons f rest ih =>
    intro bytes dropped
    rw [enforceLimits_cons]
    by_cases hg : MAX_QUEUE_FRAMES < (f :: rest).length ∨ MAX_QUEUE_BYTES < bytes
    · rw [if_pos hg]
      by_cases hf : f = 0
      · rw [if_pos hf]; exact List.suffix_cons f rest
      · rw [if_neg hf]
        exact (ih (bytes - f) (dropped + 1)).trans (List.suffix_cons f rest)
    · rw [if_neg hg]

theorem ite_conn_proj (P : Prop) [Decidable P] (a b : SseConn)
    (hq : a.queue = b.queue) (hb : a.queuedBytes = b.queuedBytes)
    (hd : a.dropped = b.dropped) :
    (if P then a else b).queue = b.queue ∧
      (if P then a else b).queuedBytes = b.queuedBytes ∧
      (if P then a else b).dropped = b.dropped := by
  by_cases h : P <;> simp [h, hq, hb, hd]

theorem writeOrQueue_queue_cases (c : SseConn) (f : Nat) (ok : Bool) (now : Nat) :
    ((writeOrQueue c f ok now).queue = c.queue ∧
      (writeOrQueue c f ok now).queuedBytes = c.queuedBytes ∧
      (writeOrQueue c f ok now).dropped = c.dropped) ∨
    ((writeOrQueue c f ok now).queue
        = (enforceLimits (c.queue ++ [f]) (c.queuedBytes + f) c.dropped).1 ∧
      (writeOrQueue c f ok now).queuedBytes
        = (enforceLimits (c.queue ++ [f]) (c.queuedBytes + f) c.dropped).2.1 ∧
      (writeOrQueue c f ok now).dropped
        = (enforceLimits (c.queue ++ [f]) (c.queuedBytes + f) c.dropped).2.2) := by
  cases hw : c.writableEnded with
  | true =>
    left
    unfold writeOrQueue
    rw [hw]
    exact ⟨rfl, rfl, rfl⟩
  | false =>
    cases hb : c.blocked with
    | false =>
      cases hok : ok with
      | true =>
        left
        unfold writeOrQueue
        rw [hw, hb]
        exact ⟨rfl, rfl, rfl⟩
      | false =>
        right
        unfold writeOrQueue
        rw [hw, hb]
        simp only [writeOrQueue, hw, hb]
        norm_num
        exact ite_conn_proj _ _ _ rfl rfl rfl
    | true =>
      right
      unfold writeOrQueue
      rw [hw, hb]
      simp only [writeOrQueue, hw, hb]
      norm_num
      exact ite_conn_proj _ _ _ rfl rfl rfl

theorem flushLoop_eq_nil (c : SseConn) (accept now : Nat) (hq : c.queue = []) :
    flushLoop c accept now = c := by
  unfold flushLoop; rw [hq]

theorem flushLoop_eq_zero (c : SseConn) (now f : Nat) (rest : List Nat)
    (hq : c.queue = f :: rest) :
    flushLoop c 0 now
      = { c with blocked := true, blockedSince := some (c.blockedSince.getD now) } := by
  unfold flushLoop; rw [hq]

theorem flushLoop_eq_succ (c : SseConn) (n now f : Nat) (rest : List Nat)
    (hq : c.queue = f :: rest) :
    flushLoop c (n + 1) now
      = flushLoop
          { c with
            queue := rest
            queuedBytes := c.queuedBytes - f
            sentEvents := c.sentEvents + 1 } n now := by
  conv_lhs => unfold flushLoop
  rw [hq]

theorem flushLoop_dropped (accept : Nat) : ∀ (c : SseConn) (now : Nat),
    (flushLoop c accept now).dropped = c.dropped := by
  induction accept with
  | zero =>
    intro c now
    cases hq : c.queue with
    | nil => rw [flushLoop_eq_nil c 0 now hq]
    | cons f rest => rw [flushLoop_eq_zero c now f rest hq]
  | succ n ih =>
    intro c now
    cases hq : c.queue with
    | nil => rw [flushLoop_eq_nil c (n + 1) now hq]
    | cons f rest =>
      rw [flushLoop_eq_succ c n now f rest hq]
      exact ih _ now

theorem flushLoop_spec (accept : Nat) : ∀ (c : SseConn) (now : Nat),
    c.queuedBytes = c.queue.sum →
    ((flushLoop c accept now).queuedBytes = (flushLoop c accept now).queue.sum ∧
      (flushLoop c accept now).queue.IsSuffix c.queue) := by
  induction accept with
  | zero =>
    intro c now h
    cases hq : c.queue with
    | nil =>
      rw [flushLoop_eq_nil c 0 now hq]
      exact ⟨h, by rw [hq]⟩
    | cons f rest =>
      rw [flushLoop_eq_zero c now f rest hq]
      refine ⟨h, ?_⟩
      show c.queue <:+ f :: rest
      rw [hq]
  | succ n ih =>
    intro c now h
    cases hq : c.queue with
    | nil =>
      rw [flushLoop_eq_nil c (n + 1) now hq]
      exact ⟨h, by rw [hq]⟩
    | cons f rest =>
      rw [flushLoop_eq_succ c n now f rest hq]
      rw [hq, List.sum_cons] at h
      have hc1 : c.queuedBytes - f = rest.sum := by omega
      have hrec := ih
        { c with
          queue := rest
          queuedBytes := c.queuedBytes - f
          sentEvents := c.sentEvents + 1 } now hc1
      refine ⟨hrec.1, hrec.2.trans ?_⟩
      exact List.suffix_cons f rest

theorem suffix_sum_le {q t : List Nat} (h : t.IsSuffix q) : t.sum ≤ q.sum := by
  obtain ⟨s, hs⟩ := h
  subst hs
  simp [List.sum_append]

/-- Reachability invariant of a connection's backpressure state: exact byte
accounting, positive frame sizes, and both queue caps. -/
def connOk (c : SseConn) : Prop :=
  c.queuedBytes = c.queue.sum ∧ (∀ f ∈ c.queue, 1 ≤ f) ∧
    c.queue.length ≤ MAX_QUEUE_FRAMES ∧ c.queuedBytes ≤ MAX_QUEUE_BYTES

theorem apply_connOk (c : SseConn) (op : ConnOp) (hop : op.realistic)
    (h : connOk c) : connOk (c.apply op) := by
  obtain ⟨hsum, hpos, hlen, hbytes⟩ := h
  cases op with
  | write f ok now =>
    have hf : 1 ≤ f := hop
    have hsum2 : c.queuedBytes + f = (c.queue ++ [f]).sum := by
      simp [List.sum_append, hsum]
    have hpos2 : ∀ x ∈ c.queue ++ [f], 1 ≤ x := by
      intro x hx
      rcases List.mem_append.1 hx with hx | hx
      · exact hpos x hx
      · simp only [List.mem_singleton] at hx; omega
    rcases writeOrQueue_queue_cases c f ok now with ⟨e1, e2, _⟩ | ⟨e1, e2, _⟩
    · exact ⟨by rw [SseConn.apply, e1, e2, hsum],
        by rw [SseConn.apply, e1]; exact hpos,
        by rw [SseConn.apply, e1]; exact hlen,
        by rw [SseConn.apply, e2]; exact hbytes⟩
    · have hcaps := enforceLimits_caps (c.queue ++ [f]) (c.queuedBytes + f)
        c.dropped hsum2 hpos2
      have hsum3 := enforceLimits_sum (c.queue ++ [f]) (c.queuedBytes + f)
        c.dropped hsum2
      refine ⟨by rw [SseConn.apply, e1, e2]; exact hsum3,
        ?_, by rw [SseConn.apply, e1]; exact hcaps.1,
        by rw [SseConn.apply, e2]; exact hcaps.2.1⟩
      rw [SseConn.apply, e1]
      intro x hx
      exact hpos2 x (hcaps.2.2.1.subset hx)
  | drain a now =>
    show connOk (flushQueue c a now)
    unfold flushQueue
    by_cases h1 : c.writableEnded = true
    · rw [if_pos h1]; exact ⟨hsum, hpos, hlen, hbytes⟩
    · rw [if_neg h1]
      set c1 : SseConn :=
        { c with blocked := false, blockedSince := none, lastDrainAt := some now }
        with hc1
      have hspec := flushLoop_spec a c1 now (by rw [hc1]; exact hsum)
      have hq1 : c1.queue = c.queue := by rw [hc1]
      refine ⟨hspec.1, ?_, ?_, ?_⟩
      · intro x hx
        exact hpos x (hq1 ▸ hspec.2.subset hx)
      · exact le_trans (hspec.2.length_le) (by rw [hq1]; exact hlen)
      · rw [hspec.1]
        exact le_trans (suffix_sum_le (hq1 ▸ hspec.2)) (by rw [← hsum]; exact hbytes)

theorem apply_bytes_exact (c : SseConn) (op : ConnOp)
    (h : c.queuedBytes = c.queue.sum) :
    (c.apply op).queuedBytes = (c.apply op).queue.sum := by
  cases op with
  | write f ok now =>
    have hsum2 : c.queuedBytes + f = (c.queue ++ [f]).sum := by
      simp [List.sum_append, h]
    rcases writeOrQueue_queue_cases c f ok now with ⟨e1, e2, _⟩ | ⟨e1, e2, _⟩
    · rw [SseConn.apply, e1, e2, h]
    · rw [SseConn.apply, e1, e2]
      exact enforceLimits_sum (c.queue ++ [f]) (c.queuedBytes + f) c.dropped hsum2
  | drain a now =>
    show (flushQueue c a now).queuedBytes = (flushQueue c a now).queue.sum
    unfold flushQueue
    by_cases h1 : c.writableEnded = true
    · rw [if_pos h1]; exact h
    · rw [if_neg h1]
      exact (flushLoop_spec a _ now (by simpa using h)).1

theorem apply_dropped_mono (c : SseConn) (op : ConnOp) :
    c.dropped ≤ (c.apply op).dropped := by
  cases op with
  | write f ok now =>
    rcases writeOrQueue_queue_cases c f ok now with ⟨_, _, e3⟩ | ⟨_, _, e3⟩
    · rw [SseConn.apply, e3]
    · rw [SseConn.apply, e3]
      exact enforceLimits_dropped_mono (c.queue ++ [f]) (c.queuedBytes + f) c.dropped
  | drain a now =>
    show c.dropped ≤ (flushQueue c a now).dropped
    unfold flushQueue
    by_cases h1 : c.writableEnded = true
    · rw [if_pos h1]
    · rw [if_neg h1, flushLoop_dropped]

theorem runOps_connOk (ops : List ConnOp) : ∀ c : SseConn, connOk c →
    (∀ op ∈ ops, op.realistic) → connOk (c.runOps ops) := by
  induction ops with
  | nil => intro c h _; exact h
  | cons op ops ih =>
    intro c h hops
    exact ih (c.apply op)
      (apply_connOk c op (hops op (List.mem_cons_self op ops)) h)
      (fun o ho => hops o (List.mem_cons_of_mem op ho))

theorem runOps_bytes_exact (ops : List ConnOp) : ∀ c : SseConn,
    c.queuedBytes = c.queue.sum →
    (c.runOps ops).queuedBytes = (c.runOps ops).queue.sum := by
  induction ops with
  | nil => intro c h; exact h
  | cons op ops ih => intro c h; exact ih (c.apply op) (apply_bytes_exact c op h)

/-- C5 (amended): for every sequence of writeOrQueue and flushQueue
operations with the nonempty frames that the SSE handler actually enqueues,
the queued-frame count never exceeds MAX_QUEUE_FRAMES and the queued bytes
never exceed MAX_QUEUE_BYTES after each operation; the dropped counter only
ever increases; and the cap-enforcement loop removes frames only from the
front (oldest first) of the just-extended queue — which drops the newly
queued frame itself when it alone exceeds the byte cap. -/
theorem C5_queue_caps_dropped_mono (ops : List ConnOp)
    (hops : ∀ op ∈ ops, op.realistic) :
    ((SseConn.runOps SseConn.initial ops).queue.length ≤ MAX_QUEUE_FRAMES ∧
      (SseConn.runOps SseConn.initial ops).queuedBytes ≤ MAX_QUEUE_BYTES) ∧
    (∀ (c : SseConn) (op : ConnOp), c.dropped ≤ (c.apply op).dropped) ∧
    (∀ (q : List Nat) (bytes dropped : Nat),
      (enforceLimits q bytes dropped).1.IsSuffix q) := by
  have h0 : connOk SseConn.initial := by
    refine ⟨rfl, ?_, ?_, ?_⟩ <;> simp [SseConn.initial, MAX_QUEUE_FRAMES, MAX_QUEUE_BYTES]
  have hrun := runOps_connOk ops SseConn.initial h0 hops
  exact ⟨⟨hrun.2.2.1, hrun.2.2.2⟩, apply_dropped_mono, enforceLimits_suffix⟩

/-- Witness for C5: a run that enters backpressure, overflows the byte cap
and drains satisfies the caps. -/
theorem C5_queue_caps_dropped_mono_witness :
    (∀ op ∈ ([.write 100 false 0, .write 600000 false 1, .drain 1 2] :
        List ConnOp), op.realistic) ∧
    ((SseConn.runOps SseConn.initial
        [.write 100 false 0, .write 600000 false 1, .drain 1 2]).queue.length
        ≤ MAX_QUEUE_FRAMES ∧
      (SseConn.runOps SseConn.initial
        [.write 100 false 0, .write 600000 false 1, .drain 1 2]).queuedBytes
        ≤ MAX_QUEUE_BYTES) :=
  ⟨by decide,
    (C5_queue_caps_dropped_mono
      [.write 100 false 0, .write 600000 false 1, .drain 1 2] (by decide)).1⟩

/-- C5 counterexample: on a fresh connection whose direct write is refused,
queueing a single frame of 600000 bytes (over the 524288-byte cap) makes the
cap-enforcement loop drop that newly queued frame itself — the queue is left
empty and the dropped counter reads 1 — contradicting the claim that the
new frame is never the one dropped. -/
theorem C5_new_frame_dropped_counterexample :
    (writeOrQueue SseConn.initial 600000 false 0).queue = [] ∧
      (writeOrQueue SseConn.initial 600000 false 0).dropped = 1 := by
  decide

/-- C10: starting from a fresh connection, after every sequence of
writeOrQueue and flushQueue operations the queuedBytes field equals the sum
of the byte lengths of the frames held in the queue — the byte accounting
never drifts. -/
theorem C10_queuedBytes_exact (ops : List ConnOp) :
    (SseConn.runOps SseConn.initial ops).queuedBytes
      = (SseConn.runOps SseConn.initial ops).queue.sum :=
  runOps_bytes_exact ops SseConn.initial rfl

/-- One token bucket of the rate-limit middleware. JavaScript float token
counts are modelled as exact rationals. -/
structure Bucket where
  tokens : ℚ
  lastRefillMs : Nat
deriving DecidableEq, Repr

/-- The outcome of one request through `rateLimitMiddleware` for its key:
either `next()` is called (the request is admitted) or the middleware
responds 429 with the computed `Retry-After` seconds. -/
inductive RlOutcome where
  | admitted
  | rejected (retryAfterSec : ℤ)
deriving DecidableEq, Repr

/-- Translation of `clamp(n, lo, hi) = Math.max(lo, Math.min(hi, n))`. -/
def clamp (n lo hi : ℚ) : ℚ := max lo (min hi n)

/-- Translation of the body of `rateLimitMiddleware` for one key: fetch or
create the bucket (a fresh bucket holds `capacity` tokens, stamped now),
lazily refill by elapsed seconds times the rate (clamped to capacity) when
time has passed, then either consume one token and admit, or compute
`Math.ceil(Math.max(0.1, secondsUntilNext))` and reject with 429.
`Math.max(0.1, x)` is modelled with the exact rational 1/10. -/
def rateLimitStep (capacity refillPerSec : ℚ) (b? : Option Bucket) (t : Nat) :
    Bucket × RlOutcome :=
  let b0 := b?.getD { tokens := capacity, lastRefillMs := t }
  let elapsedSec : ℚ := ((t : ℚ) - (b0.lastRefillMs : ℚ)) / 1000
  let b1 := if 0 < elapsedSec then
      { tokens := clamp (b0.tokens + elapsedSec * refillPerSec) 0 capacity,
        lastRefillMs := t }
    else b0
  if 1 ≤ b1.tokens then ({ b1 with tokens := b1.tokens - 1 }, RlOutcome.admitted)
  else
    let secondsUntilNext := if 0 < refillPerSec then (1 - b1.tokens) / refillPerSec else 1
    let retryAfterSec := ⌈max (1 / 10 : ℚ) secondsUntilNext⌉
    (b1, RlOutcome.rejected retryAfterSec)

/-- Thread a sequence of request instants (ms timestamps) for one key
through the middleware, collecting outcomes. -/
def rateLimitRun (capacity refillPerSec : ℚ) :
    Option Bucket → List Nat → Option Bucket × List RlOutcome
  | b?, [] => (b?, [])
  | b?, t :: ts =>
    let p := rateLimitStep capacity refillPerSec b? t
    let r := rateLimitRun capacity refillPerSec (some p.1) ts
    (r.1, p.2 :: r.2)

theorem rateLimitStep_same_t_consume (cap refill x : ℚ) (t0 : Nat) (hx : 1 ≤ x) :
    rateLimitStep cap refill (some ⟨x, t0⟩) t0
      = (⟨x - 1, t0⟩, RlOutcome.admitted) := by
  unfold rateLimitStep
  norm_num [hx]

theorem rateLimitStep_same_t_reject (cap refill x : ℚ) (t0 : Nat) (hx : x < 1) :
    rateLimitStep cap refill (some ⟨x, t0⟩) t0
      = (⟨x, t0⟩, RlOutcome.rejected
          ⌈max (1 / 10 : ℚ) (if 0 < refill then (1 - x) / refill else 1)⌉) := by
  unfold rateLimitStep
  norm_num [not_le.2 hx]

theorem rateLimitStep_refill_consume (cap refill : ℚ) (t0 dt : Nat) (hcap : 1 ≤ cap)
    (hdt : 1 ≤ dt) (hr : ((dt : ℚ) / 1000) * refill = 1) :
    rateLimitStep cap refill (some ⟨0, t0⟩) (t0 + dt)
      = (⟨0, t0 + dt⟩, RlOutcome.admitted) := by
  have hdt0 : 0 < dt := hdt
  have hclamp : clamp ((dt : ℚ) / 1000 * refill) 0 cap = 1 := by
    rw [hr]
    unfold clamp
    rw [min_eq_right hcap, max_eq_right (by norm_num)]
  unfold rateLimitStep
  norm_num [hdt0, hclamp]

theorem rateLimitRun_replicate_admits (cap refill : ℚ) (t0 : Nat) :
    ∀ (k : Nat) (x : ℚ), (k : ℚ) ≤ x →
      rateLimitRun cap refill (some ⟨x, t0⟩) (List.replicate k t0)
        = (some ⟨x - k, t0⟩, List.replicate k RlOutcome.admitted) := by
  intro k
  induction k with
  | zero =>
    intro x _
    simp [rateLimitRun]
  | succ k ih =>
    intro x hx
    have hk0 : (0 : ℚ) ≤ (k : ℚ) := by positivity
    have hx1 : 1 ≤ x := by push_cast at hx; linarith
    rw [List.replicate_succ, rateLimitRun]
    rw [rateLimitStep_same_t_consume cap refill x t0 hx1]
    have hx2 : (k : ℚ) ≤ x - 1 := by push_cast at hx; linarith
    simp only [ih (x - 1) hx2, List.replicate_succ, Prod.mk.injEq,
      Option.some.injEq, Bucket.mk.injEq, and_true, true_and]
    push_cast
    ring_nf

theorem rateLimitRun_append (cap refill : ℚ) :
    ∀ (l1 l2 : List Nat) (b? : Option Bucket),
      rateLimitRun cap refill b? (l1 ++ l2)
        = ((rateLimitRun cap refill (rateLimitRun cap refill b? l1).1 l2).1,
            (rateLimitRun cap refill b? l1).2 ++
              (rateLimitRun cap refill (rateLimitRun cap refill b? l1).1 l2).2) := by
  intro l1
  induction l1 with
  | nil =>
    intro l2 b?
    simp [rateLimitRun]
  | cons t ts ih =>
    intro l2 b?
    rw [List.cons_append, rateLimitRun, rateLimitRun]
    simp only [ih l2 (some (rateLimitStep cap refill b? t).1)]
    rfl

theorem rateLimitStep_none (cap refill : ℚ) (t : Nat) :
    rateLimitStep cap refill none t = rateLimitStep cap refill (some ⟨cap, t⟩) t := rfl

theorem rateLimitRun_none_replicate (cap refill : ℚ) (t0 : Nat) (k : Nat)
    (hk : ((k : Nat) : ℚ) ≤ cap) (hk1 : 1 ≤ k) :
    rateLimitRun cap refill none (List.replicate k t0)
      = (some ⟨cap - (k : ℚ), t0⟩, List.replicate k RlOutcome.admitted) := by
  obtain ⟨k', rfl⟩ : ∃ k', k = k' + 1 := ⟨k - 1, by omega⟩
  have hk0 : (0 : ℚ) ≤ (k' : ℚ) := by positivity
  have hkc : ((k' : ℚ) + 1) ≤ cap := by push_cast at hk; linarith
  have hcap1 : (1 : ℚ) ≤ cap := by linarith
  rw [List.replicate_succ, rateLimitRun, rateLimitStep_none,
    rateLimitStep_same_t_consume cap refill cap t0 hcap1]
  simp only [rateLimitRun_replicate_admits cap refill t0 k' (cap - 1) (by linarith),
    List.replicate_succ, Prod.mk.injEq, Option.some.injEq, Bucket.mk.injEq,
    and_true, true_and]
  push_cast
  ring_nf

/-- C6: for a key with bucket capacity C ≥ 1 and refill rate R > 0
tokens/sec, starting from a fresh bucket: C consecutive requests at the
same instant are all admitted; the (C+1)th request at that instant is
rejected with status 429 and the computed numeric Retry-After
`ceil(max(0.1, 1/R))` seconds; and after waiting exactly 1/R seconds
(dtMs milliseconds with dtMs * R = 1000) exactly one further request is
admitted — a second request at that same instant is rejected again. -/
theorem C6_rate_limiter (C : Nat) (R : ℚ) (t0 dtMs : Nat)
    (hC : 1 ≤ C) (hR : 0 < R) (hdt : (dtMs : ℚ) * R = 1000) :
    (rateLimitRun (C : ℚ) R none
        (List.replicate C t0 ++ [t0, t0 + dtMs, t0 + dtMs])).2
      = List.replicate C RlOutcome.admitted ++
        [RlOutcome.rejected ⌈max (1 / 10 : ℚ) (1 / R)⌉,
          RlOutcome.admitted,
          RlOutcome.rejected ⌈max (1 / 10 : ℚ) (1 / R)⌉] := by
  have hdtpos : 1 ≤ dtMs := by
    rcases Nat.eq_zero_or_pos dtMs with h | h
    · subst h; norm_num at hdt
    · exact h
  have hr1 : ((dtMs : ℚ) / 1000) * R = 1 := by
    rw [div_mul_eq_mul_div, hdt]; norm_num
  have hcap1 : (1 : ℚ) ≤ (C : ℚ) := by exact_mod_cast hC
  have hfirst := rateLimitRun_none_replicate (C : ℚ) R t0 C (le_refl _) hC
  have hzero : (C : ℚ) - (C : ℚ) = 0 := sub_self _
  rw [rateLimitRun_append, hfirst, hzero]
  have hstep1 := rateLimitStep_same_t_reject (C : ℚ) R 0 t0 (by norm_num)
  have hstep2 := rateLimitStep_refill_consume (C : ℚ) R t0 dtMs hcap1 hdtpos hr1
  have hstep3 := rateLimitStep_same_t_reject (C : ℚ) R 0 (t0 + dtMs) (by norm_num)
  simp only [rateLimitRun, hstep1, hstep2, hstep3, if_pos hR, sub_zero]

/-- Witness for C6: capacity 2, rate 1 token/sec, requests at t=0 and after
1000 ms. -/
theorem C6_rate_limiter_witness :
    (1 ≤ 2 ∧ (0 : ℚ) < 1 ∧ ((1000 : Nat) : ℚ) * 1 = 1000) ∧
      (rateLimitRun ((2 : Nat) : ℚ) 1 none
          (List.replicate 2 0 ++ [0, 0 + 1000, 0 + 1000])).2
        = List.replicate 2 RlOutcome.admitted ++
          [RlOutcome.rejected ⌈max (1 / 10 : ℚ) (1 / 1)⌉,
            RlOutcome.admitted,
            RlOutcome.rejected ⌈max (1 / 10 : ℚ) (1 / 1)⌉] :=
  ⟨⟨by norm_num, by norm_num, by norm_num⟩,
    C6_rate_limiter 2 1 0 1000 (by norm_num) (by norm_num) (by norm_num)⟩

/-- One row of the `webhook_events` sqlite table (id is the PRIMARY KEY). -/
structure WebhookRow where
  id : String
  received_at : Nat
  source : Option String
  payload_json : String
deriving DecidableEq, Repr

/-- Translation of `recordWebhookOnce`: INSERT the row; a UNIQUE-constraint
violation on the primary key (an existing row with the same id) yields
`inserted: false` instead of an error. -/
def recordWebhookOnce (db : List WebhookRow) (id : String) (now : Nat)
    (source : Option String) (payloadJson : String) : List WebhookRow × Bool :=
  if db.any (fun r => r.id = id) then (db, false)
  else (db ++ [⟨id, now, source, payloadJson⟩], true)

/-- The parsed webhook body, as far as the route inspects it: the optional
`id` and `eventId` fields, the optional `source`, and its JSON serialization
(used as the persisted payload and the published event data). -/
structure WebhookPayload where
  id : Option String
  eventId : Option String
  source : Option String
  json : String
deriving DecidableEq, Repr

/-- The responses of POST /realtime/webhook. -/
inductive WebhookResp where
  | invalidSignature401
  | invalidJson400
  | missingId400
  | okDuplicate
  | ok
deriving DecidableEq, Repr

/-- Translation of `String(payload?.id || payload?.eventId || "")`: a falsy
(absent or empty) id falls back to eventId, then to the empty string. -/
def webhookEventId (p : WebhookPayload) : String :=
  if p.id.getD "" ≠ "" then p.id.getD "" else p.eventId.getD ""

/-- Translation of the POST /realtime/webhook handler: verify the HMAC
signature over the raw bytes (`sigOk` models the constant-time comparison
outcome) and answer 401 on mismatch; parse the JSON body (`none` models a
parse failure) and answer 400; extract the event id and answer 400 when it
is empty; record the event once, answering `{duplicate:true}` without
publishing when the row already exists; on first insert publish one
`webhook.received` bus event and answer ok.  The third component collects
the events this call published. -/
def handleWebhook (db : List WebhookRow) (bus : EventBus) (now : Nat)
    (sigOk : Bool) (parsed : Option WebhookPayload) :
    List WebhookRow × EventBus × List RtEvent × WebhookResp :=
  if ¬ sigOk then (db, bus, [], WebhookResp.invalidSignature401)
  else
    match parsed with
    | none => (db, bus, [], WebhookResp.invalidJson400)
    | some p =>
      if webhookEventId p = "" then (db, bus, [], WebhookResp.missingId400)
      else
        let rec1 := recordWebhookOnce db (webhookEventId p) now p.source p.json
        if ¬ rec1.2 then (rec1.1, bus, [], WebhookResp.okDuplicate)
        else
          let pub := bus.publish "webhook.received" p.json now {}
          (rec1.1, pub.1, [pub.2], WebhookResp.ok)

/-- C7: two validly signed deliveries of the same payload (same event id):
the first returns ok and publishes exactly one webhook.received event; the
second returns duplicate:true, publishes nothing, and leaves the bus
unchanged. -/
theorem C7_webhook_at_most_once (db : List WebhookRow) (bus : EventBus)
    (now₁ now₂ : Nat) (p : WebhookPayload)
    (hid : webhookEventId p ≠ "")
    (hfresh : ∀ r ∈ db, r.id ≠ webhookEventId p) :
    (handleWebhook db bus now₁ true (some p)).2.2.2 = WebhookResp.ok ∧
    ((handleWebhook db bus now₁ true (some p)).2.2.1.map RtEvent.type)
        = ["webhook.received"] ∧
    (handleWebhook (handleWebhook db bus now₁ true (some p)).1
        (handleWebhook db bus now₁ true (some p)).2.1 now₂ true (some p)).2.2.2
      = WebhookResp.okDuplicate ∧
    (handleWebhook (handleWebhook db bus now₁ true (some p)).1
        (handleWebhook db bus now₁ true (some p)).2.1 now₂ true (some p)).2.2.1
      = [] ∧
    (handleWebhook (handleWebhook db bus now₁ true (some p)).1
        (handleWebhook db bus now₁ true (some p)).2.1 now₂ true (some p)).2.1
      = (handleWebhook db bus now₁ true (some p)).2.1 := by
  have hany : db.any (fun r => r.id = webhookEventId p) = false := by
    rw [List.any_eq_false]
    intro r hr
    simpa using hfresh r hr
  have hrec : recordWebhookOnce db (webhookEventId p) now₁ p.source p.json
      = (db ++ [⟨webhookEventId p, now₁, p.source, p.json⟩], true) := by
    unfold recordWebhookOnce
    rw [hany]
    simp
  have h1 : handleWebhook db bus now₁ true (some p)
      = (db ++ [⟨webhookEventId p, now₁, p.source, p.json⟩],
          (bus.publish "webhook.received" p.json now₁ {}).1,
          [(bus.publish "webhook.received" p.json now₁ {}).2], WebhookResp.ok) := by
    unfold handleWebhook
    simp only [hid, hrec]
    norm_num
  have hany2 : (db ++ [(⟨webhookEventId p, now₁, p.source, p.json⟩ : WebhookRow)]).any
        (fun r => r.id = webhookEventId p) = true := by
    rw [List.any_eq_true]
    refine ⟨_, List.mem_append_right db (List.mem_singleton_self _), ?_⟩
    simp
  have h2 : handleWebhook
      (db ++ [⟨webhookEventId p, now₁, p.source, p.json⟩])
      (bus.publish "webhook.received" p.json now₁ {}).1 now₂ true (some p)
      = (db ++ [⟨webhookEventId p, now₁, p.source, p.json⟩],
          (bus.publish "webhook.received" p.json now₁ {}).1, [],
          WebhookResp.okDuplicate) := by
    unfold handleWebhook recordWebhookOnce
    simp only [hid, hany2]
    norm_num
  rw [h1]
  simp only [h2]
  simp [EventBus.publish]

/-- Witness for C7: a concrete first and duplicate delivery on a fresh bus
and empty table. -/
theorem C7_webhook_at_most_once_witness :
    (webhookEventId ⟨some "evt-1", none, some "stripe", "x"⟩ ≠ "" ∧
      (∀ r ∈ ([] : List WebhookRow),
        r.id ≠ webhookEventId ⟨some "evt-1", none, some "stripe", "x"⟩)) ∧
    (handleWebhook [] (EventBus.fresh 1000) 5 true
        (some ⟨some "evt-1", none, some "stripe", "x"⟩)).2.2.2 = WebhookResp.ok ∧
    ((handleWebhook [] (EventBus.fresh 1000) 5 true
        (some ⟨some "evt-1", none, some "stripe", "x"⟩)).2.2.1.map RtEvent.type)
      = ["webhook.received"] :=
  ⟨⟨by decide, by decide⟩,
    (C7_webhook_at_most_once [] (EventBus.fresh 1000) 5 7
      ⟨some "evt-1", none, some "stripe", "x"⟩ (by decide) (by decide)).1,
    (C7_webhook_at_most_once [] (EventBus.fresh 1000) 5 7
      ⟨some "evt-1", none, some "stripe", "x"⟩ (by decide) (by decide)).2.1⟩

/-- One queued CPU job. -/
structure Job where
  id : Nat
  ms : Nat
  enqueuedAt : Nat
deriving DecidableEq, Repr

/-- One worker slot (the Worker handle itself carries no pool-visible
state beyond busy/currentJobId). -/
structure WorkerSlot where
  busy : Bool
  currentJobId : Option Nat
deriving DecidableEq, Repr

/-- The state of `CpuWorkerPool`. The slots list always has `size`
entries; `inFlight` is the Map of dispatched jobs keyed by job id. -/
structure CpuWorkerPool where
  size : Nat
  maxQueue : Nat
  slots : List WorkerSlot
  queue : List Job
  nextJobId : Nat
  completed : Nat
  rejected : Nat
  inFlight : List (Nat × Job)
deriving DecidableEq, Repr

/-- The pool as built by `new CpuWorkerPool(size, maxQueue)`: `size` idle
slots, empty queue, first job id 1. -/
def CpuWorkerPool.init (size maxQueue : Nat) : CpuWorkerPool :=
  { size := size, maxQueue := maxQueue,
    slots := List.replicate size ⟨false, none⟩,
    queue := [], nextJobId := 1, completed := 0, rejected := 0, inFlight := [] }

/-- Translation of `status()`. -/
structure PoolStatus where
  size : Nat
  maxQueue : Nat
  queued : Nat
  running : Nat
  completed : Nat
  rejected : Nat
deriving DecidableEq, Repr

def CpuWorkerPool.status (p : CpuWorkerPool) : PoolStatus :=
  { size := p.size, maxQueue := p.maxQueue, queued := p.queue.length,
    running := (p.slots.filter (fun s => s.busy)).length,
    completed := p.completed, rejected := p.rejected }

/-- Translation of the `drain()` for-loop: walk the slots in order; skip
busy ones; `shift()` the next queued job into each idle slot (marking it
busy, recording `currentJobId`, adding the job to `inFlight`, and posting
the message to the worker) and stop when the queue is empty. -/
def drainLoop : List WorkerSlot → List Job → List (Nat × Job) →
    List WorkerSlot × List Job × List (Nat × Job)
  | [], queue, infl => ([], queue, infl)
  | s :: rest, queue, infl =>
    if s.busy then
      let r := drainLoop rest queue infl
      (s :: r.1, r.2.1, r.2.2)
    else
      match queue with
      | [] => (s :: rest, [], infl)
      | j :: qrest =>
        let r := drainLoop rest qrest (infl ++ [(j.id, j)])
        (⟨true, some j.id⟩ :: r.1, r.2.1, r.2.2)

def CpuWorkerPool.drain (p : CpuWorkerPool) : CpuWorkerPool :=
  { p with
    slots := (drainLoop p.slots p.queue p.inFlight).1
    queue := (drainLoop p.slots p.queue p.inFlight).2.1
    inFlight := (drainLoop p.slots p.queue p.inFlight).2.2 }

/-- Result of a `submit` call: the accepted job's id, or the immediate
POOL_FULL rejection. -/
inductive SubmitResult where
  | accepted (id : Nat)
  | poolFull
deriving DecidableEq, Repr

/-- Translation of `submit(ms)`: when the pending queue is at capacity the
promise is rejected immediately with code POOL_FULL and the rejected
counter is bumped; otherwise the job is enqueued and `drain()` runs. -/
def CpuWorkerPool.submit (p : CpuWorkerPool) (ms now : Nat) :
    CpuWorkerPool × SubmitResult :=
  if p.maxQueue ≤ p.queue.length then
    ({ p with rejected := p.rejected + 1 }, SubmitResult.poolFull)
  else
    (({ p with
        nextJobId := p.nextJobId + 1
        queue := p.queue ++ [(⟨p.nextJobId, ms, now⟩ : Job)] }).drain,
      SubmitResult.accepted p.nextJobId)

/-- The HTTP status the GET /cpu/worker route answers with: a rejection
whose code is POOL_FULL becomes 429, a resolved job becomes a 200 JSON
body. -/
def cpuWorkerRouteStatus : SubmitResult → Nat
  | SubmitResult.poolFull => 429
  | SubmitResult.accepted _ => 200

/-- A message received from a worker, as the pool reads it:
an optional numeric `id` plus the timing fields. -/
structure WorkerMsg where
  id : Option Nat
  requestedMs : Nat
  actualMs : Nat
deriving DecidableEq, Repr

/-- A settled future visible to a submitter. -/
inductive JobOutcome where
  | resolved (requestedMs actualMs : Nat)
  | failed
deriving DecidableEq, Repr

/-- Translation of `onWorkerMessage(slot, msg)`: a message whose `id` is
not a number is ignored; an id with no inFlight entry is ignored;
otherwise the entry is deleted, the slot freed, `completed` bumped, the
caller's future resolved with `{requestedMs, actualMs}`, and `drain()`
runs.  The second component lists the futures settled by this call. -/
def CpuWorkerPool.onWorkerMessage (p : CpuWorkerPool) (si : Nat)
    (msg : WorkerMsg) : CpuWorkerPool × List (Nat × JobOutcome) :=
  match msg.id with
  | none => (p, [])
  | some id =>
    match p.inFlight.find? (fun e => e.1 = id) with
    | none => (p, [])
    | some _ =>
      (({ p with
          inFlight := p.inFlight.filter (fun e => ¬ e.1 = id)
          slots := p.slots.set si ⟨false, none⟩
          completed := p.completed + 1 }).drain,
        [(id, JobOutcome.resolved msg.requestedMs msg.actualMs)])

/-- Translation of the worker `error` / nonzero `exit` path: the slot's
current job (if any) is failed for its own caller via `failInFlight`, and
`replaceWorker` installs a fresh idle worker in that slot.  No drain runs
on this path. -/
def CpuWorkerPool.onWorkerFail (p : CpuWorkerPool) (si : Nat) :
    CpuWorkerPool × List (Nat × JobOutcome) :=
  match p.slots.get? si with
  | none => (p, [])
  | some s =>
    let settled := match s.currentJobId with
      | some jid =>
        match p.inFlight.find? (fun e => e.1 = jid) with
        | some _ => [(jid, JobOutcome.failed)]
        | none => []
      | none => []
    let infl := match s.currentJobId with
      | some jid => p.inFlight.filter (fun e => ¬ e.1 = jid)
      | none => p.inFlight
    ({ p with slots := p.slots.set si ⟨false, none⟩, inFlight := infl }, settled)

/-- One externally triggered pool transition. -/
inductive PoolOp where
  | submit (ms now : Nat)
  | message (si : Nat) (msg : WorkerMsg)
  | fail (si : Nat)
deriving DecidableEq, Repr

def CpuWorkerPool.step (p : CpuWorkerPool) : PoolOp → CpuWorkerPool
  | PoolOp.submit ms now => (p.submit ms now).1
  | PoolOp.message si msg => (p.onWorkerMessage si msg).1
  | PoolOp.fail si => (p.onWorkerFail si).1

def CpuWorkerPool.runPool (p : CpuWorkerPool) : List PoolOp → CpuWorkerPool
  | [] => p
  | op :: ops => (p.step op).runPool ops

theorem drainLoop_slots_length : ∀ (slots : List WorkerSlot) (q : List Job)
    (infl : List (Nat × Job)), (drainLoop slots q infl).1.length = slots.length := by
  intro slots
  induction slots with
  | nil => intro q infl; rfl
  | cons s rest ih =>
    intro q infl
    by_cases hb : s.busy = true
    · simp only [drainLoop, hb, if_true]
      simp [ih]
    · simp only [drainLoop, hb]
      cases q with
      | nil => simp
      | cons j qrest => simp [ih]

theorem drain_slots_length (p : CpuWorkerPool) :
    p.drain.slots.length = p.slots.length := by
  unfold CpuWorkerPool.drain
  exact drainLoop_slots_length p.slots p.queue p.inFlight

theorem step_slots_length (p : CpuWorkerPool) (op : PoolOp) :
    (p.step op).slots.length = p.slots.length := by
  cases op with
  | submit ms now =>
    show (p.submit ms now).1.slots.length = _
    unfold CpuWorkerPool.submit
    by_cases hfull : p.maxQueue ≤ p.queue.length
    · simp [hfull]
    · simp only [hfull, if_false, if_neg hfull]
      rw [drain_slots_length]
  | message si msg =>
    show (p.onWorkerMessage si msg).1.slots.length = _
    unfold CpuWorkerPool.onWorkerMessage
    cases msg.id with
    | none => rfl
    | some id =>
      cases hf : p.inFlight.find? (fun e => e.1 = id) with
      | none => simp [hf]
      | some e => simp [hf, drain_slots_length, List.length_set]
  | fail si =>
    show (p.onWorkerFail si).1.slots.length = _
    unfold CpuWorkerPool.onWorkerFail
    cases hg : p.slots.get? si with
    | none => rfl
    | some s => simp [hg, List.length_set]

theorem runPool_slots_length (ops : List PoolOp) : ∀ p : CpuWorkerPool,
    (p.runPool ops).slots.length = p.slots.length := by
  induction ops with
  | nil => intro p; rfl
  | cons op ops ih =>
    intro p
    rw [CpuWorkerPool.runPool, ih, step_slots_length]

theorem step_size (p : CpuWorkerPool) (op : PoolOp) :
    (p.step op).size = p.size := by
  cases op with
  | submit ms now =>
    show (p.submit ms now).1.size = _
    unfold CpuWorkerPool.submit
    by_cases hfull : p.maxQueue ≤ p.queue.length
    · simp [hfull]
    · simp [hfull, CpuWorkerPool.drain]
  | message si msg =>
    show (p.onWorkerMessage si msg).1.size = _
    unfold CpuWorkerPool.onWorkerMessage
    cases msg.id with
    | none => rfl
    | some id =>
      cases hf : p.inFlight.find? (fun e => e.1 = id) with
      | none => simp [hf]
      | some e => simp [hf, CpuWorkerPool.drain]
  | fail si =>
    show (p.onWorkerFail si).1.size = _
    unfold CpuWorkerPool.onWorkerFail
    cases hg : p.slots.get? si with
    | none => rfl
    | some s => simp [hg]

theorem runPool_size (ops : List PoolOp) : ∀ p : CpuWorkerPool,
    (p.runPool ops).size = p.size := by
  induction ops with
  | nil => intro p; rfl
  | cons op ops ih =>
    intro p
    rw [CpuWorkerPool.runPool, ih, step_size]

/-- C8: a submit against a pool whose pending queue holds maxQueue jobs is
rejected immediately with POOL_FULL — the only state change is the bumped
cumulative rejected counter, so no submission is silently dropped — and
the /cpu/worker route maps that rejection to HTTP 429; moreover, for every
run of pool operations from a fresh pool, the running count reported by
status() never exceeds the reported pool size. -/
theorem C8_pool_full_reject_and_running_bound (p : CpuWorkerPool)
    (ms now : Nat) (hfull : p.queue.length = p.maxQueue) :
    ((p.submit ms now).2 = SubmitResult.poolFull ∧
      (p.submit ms now).1 = { p with rejected := p.rejected + 1 } ∧
      cpuWorkerRouteStatus (p.submit ms now).2 = 429) ∧
    (∀ (size maxQueue : Nat) (ops : List PoolOp),
      ((CpuWorkerPool.init size maxQueue).runPool ops).status.running
        ≤ ((CpuWorkerPool.init size maxQueue).runPool ops).status.size) := by
  constructor
  · have hge : p.maxQueue ≤ p.queue.length := le_of_eq hfull.symm
    unfold CpuWorkerPool.submit
    rw [if_pos hge]
    exact ⟨rfl, rfl, rfl⟩
  · intro size maxQueue ops
    simp only [CpuWorkerPool.status]
    calc (((CpuWorkerPool.init size maxQueue).runPool ops).slots.filter
            (fun s => s.busy)).length
        ≤ ((CpuWorkerPool.init size maxQueue).runPool ops).slots.length :=
          List.length_filter_le _ _
      _ = (CpuWorkerPool.init size maxQueue).slots.length :=
          runPool_slots_length ops _
      _ = size := by simp [CpuWorkerPool.init]
      _ = (CpuWorkerPool.init size maxQueue).size := rfl
      _ = ((CpuWorkerPool.init size maxQueue).runPool ops).size :=
          (runPool_size ops _).symm

/-- Witness for C8: a 1-slot pool with maxQueue 1 after two accepted
submits (one dispatched, one queued) has its pending queue at capacity;
the third submit is rejected with POOL_FULL. -/
theorem C8_pool_full_reject_and_running_bound_witness :
    ((CpuWorkerPool.runPool (CpuWorkerPool.init 1 1)
        [PoolOp.submit 100 0, PoolOp.submit 100 1]).queue.length
      = (CpuWorkerPool.runPool (CpuWorkerPool.init 1 1)
          [PoolOp.submit 100 0, PoolOp.submit 100 1]).maxQueue) ∧
    ((CpuWorkerPool.runPool (CpuWorkerPool.init 1 1)
        [PoolOp.submit 100 0, PoolOp.submit 100 1]).submit 100 2).2
      = SubmitResult.poolFull :=
  ⟨by decide,
    ((C8_pool_full_reject_and_running_bound
      (CpuWorkerPool.runPool (CpuWorkerPool.init 1 1)
        [PoolOp.submit 100 0, PoolOp.submit 100 1]) 100 2 (by decide)).1).1⟩

/-- The message actually posted by the worker script `cpuWorker.ts`: the
script busy-loops once at startup on `workerData?.ms ?? 300` (the pool
passes no workerData, so ms is 300), posts `{requestedMs, actualMs}` with
no `id` field, and installs no message listener, so it never answers the
pool's `postMessage({id, ms})`. -/
def cpuWorkerScriptMsg (actualMs : Nat) : WorkerMsg :=
  { id := none, requestedMs := 300, actualMs := actualMs }

/-- C9, code evaluated at the failing input: submit one job to a fresh
1-slot pool — the job is dispatched and the slot becomes busy with job id
1 — then deliver the message the worker script actually posts.  Because
that message has no numeric id, onWorkerMessage ignores it: no future is
resolved, the pool state is unchanged, the slot stays busy and completed
stays 0, contradicting the claimed resolve/idle/increment behavior. -/
theorem C9_worker_result_never_resolves :
    ((CpuWorkerPool.init 1 50).submit 100 0).1.slots = [⟨true, some 1⟩] ∧
      (((CpuWorkerPool.init 1 50).submit 100 0).1.onWorkerMessage 0
          (cpuWorkerScriptMsg 305))
        = (((CpuWorkerPool.init 1 50).submit 100 0).1, []) ∧
      ((CpuWorkerPool.init 1 50).submit 100 0).1.completed = 0 := by
  decide

end NodeLab
